import Mathlib

/-!
Verification development for the FundVal-Live Position Ledger & Trade
Settlement Engine.  The Python services (`trade.py`, `account.py`,
`fund.py`, `scheduler.py`, `subscription.py`) are shallowly embedded:
floats become rationals, nullable columns become `Option`, the positions
table and the transactions log become explicit lists, and each service
function becomes a pure state transformer mirrored statement by statement
from the source.
-/

namespace FundVal

/-- Python `round(x, 4)`: share quantities are kept to 4 decimal places. -/
def round4 (x : ℚ) : ℚ := (round (x * 10000) : ℚ) / 10000

/-- Python `round(x, 2)`: currency amounts are kept to 2 decimal places. -/
def round2 (x : ℚ) : ℚ := (round (x * 100) : ℚ) / 100

/-- A row of the `positions` table (key columns omitted): weighted-average
cost and share count, as read by `_get_position`. -/
structure Position where
  cost : ℚ
  shares : ℚ
deriving DecidableEq, Repr

/-- Key of the `positions` table: (account_id, code). -/
abbrev PosKey := Nat × String

/-- A row of the `transactions` table.  Nullable columns are `Option`;
`appliedAt` is a timestamp (abstracted to `Nat`), null while pending. -/
structure Txn where
  id : Nat
  accountId : Nat
  code : String
  opType : String
  amountCny : Option ℚ
  sharesRedeemed : Option ℚ
  confirmDate : Option String
  confirmNav : Option ℚ
  sharesAdded : Option ℚ
  costAfter : Option ℚ
  appliedAt : Option Nat
deriving DecidableEq, Repr

/-- The durable store: the `positions` table and the append-only
`transactions` log. -/
structure DB where
  positions : List (PosKey × Position)
  transactions : List Txn
deriving DecidableEq, Repr

/-- `SELECT cost, shares FROM positions WHERE account_id = .. AND code = ..`
(`_get_position` in `trade.py`). -/
def getPosition (db : DB) (k : PosKey) : Option Position :=
  match db.positions.find? (fun kp => kp.1 = k) with
  | some kp => some kp.2
  | none => none

/-- `INSERT .. ON DUPLICATE KEY UPDATE` on the positions unique key
(`upsert_position` in `account.py`): replace the row if present,
append it otherwise. -/
def upsertList (l : List (PosKey × Position)) (k : PosKey) (cost shares : ℚ) :
    List (PosKey × Position) :=
  match l with
  | [] => [(k, ⟨cost, shares⟩)]
  | (k', p) :: rest =>
      if k' = k then (k, ⟨cost, shares⟩) :: rest
      else (k', p) :: upsertList rest k cost shares

/-- `upsert_position(account_id, code, cost, shares)` — commits on its own
connection. -/
def upsert_position (db : DB) (k : PosKey) (cost shares : ℚ) : DB :=
  { db with positions := upsertList db.positions k cost shares }

/-- `DELETE FROM positions WHERE account_id = .. AND code = ..`
(`remove_position` in `account.py`). -/
def remove_position (db : DB) (k : PosKey) : DB :=
  { db with positions := db.positions.filter (fun kp => ¬ kp.1 = k) }

/-- `INSERT INTO transactions ...` (append-only log). -/
def insertTxn (db : DB) (t : Txn) : DB :=
  { db with transactions := db.transactions ++ [t] }

/-- `UPDATE transactions SET ... WHERE id = tid`. -/
def updateTxnById (db : DB) (tid : Nat) (f : Txn → Txn) : DB :=
  { db with transactions := db.transactions.map (fun t => if t.id = tid then f t else t) }

/-- Result of `add_position_trade`, mirroring the returned dict. -/
inductive AddOutcome where
  | rejected
  | settled (confirmDate : String) (confirmNav : ℚ) (sharesAdded : ℚ)
      (costAfter : ℚ) (sharesAfter : ℚ)
  | pending (confirmDate : String)
deriving DecidableEq, Repr

/-- Result of `reduce_position_trade`, mirroring the returned dict. -/
inductive ReduceOutcome where
  | rejected
  | settled (confirmDate : String) (confirmNav : ℚ) (amountCny : ℚ)
      (sharesAfter : ℚ)
  | pending (confirmDate : String)
deriving DecidableEq, Repr

/-- The settled Trade Record written by `add_position_trade`
(confirm_nav, shares_added, cost_after and applied_at all set). -/
def settledAddTxn (tid accountId : Nat) (code : String) (amountCny : ℚ)
    (confirmDate : String) (nav sharesAdded costAfter : ℚ) (now : Nat) : Txn :=
  { id := tid, accountId := accountId, code := code, opType := "add",
    amountCny := some amountCny, sharesRedeemed := none,
    confirmDate := some confirmDate, confirmNav := some nav,
    sharesAdded := some sharesAdded, costAfter := some costAfter,
    appliedAt := some now }

/-- The pending Trade Record written by `add_position_trade` when no NAV is
available: amount and confirm_date only. -/
def pendingAddTxn (tid accountId : Nat) (code : String) (amountCny : ℚ)
    (confirmDate : String) : Txn :=
  { id := tid, accountId := accountId, code := code, opType := "add",
    amountCny := some amountCny, sharesRedeemed := none,
    confirmDate := some confirmDate, confirmNav := none,
    sharesAdded := none, costAfter := none, appliedAt := none }

/-- The settled Trade Record written by `reduce_position_trade`. -/
def settledReduceTxn (tid accountId : Nat) (code : String) (amountCny sharesRedeemed : ℚ)
    (confirmDate : String) (nav costAfter : ℚ) (now : Nat) : Txn :=
  { id := tid, accountId := accountId, code := code, opType := "reduce",
    amountCny := some amountCny, sharesRedeemed := some sharesRedeemed,
    confirmDate := some confirmDate, confirmNav := some nav,
    sharesAdded := none, costAfter := some costAfter,
    appliedAt := some now }

/-- The pending Trade Record written by `reduce_position_trade`. -/
def pendingReduceTxn (tid accountId : Nat) (code : String) (sharesRedeemed : ℚ)
    (confirmDate : String) : Txn :=
  { id := tid, accountId := accountId, code := code, opType := "reduce",
    amountCny := none, sharesRedeemed := some sharesRedeemed,
    confirmDate := some confirmDate, confirmNav := none,
    sharesAdded := none, costAfter := none, appliedAt := none }

/--
The two database commits performed by the settled branch of
`add_position_trade`, in source order: `upsert_position` commits on its own
connection first, then the settled Trade Record insert is committed on the
trade connection.  All values are computed from the database as read before
the first commit, exactly as in the source.
-/
def add_trade_commits (nav : ℚ) (accountId : Nat) (code : String) (amountCny : ℚ)
    (confirmDate : String) (now tid : Nat) (db : DB) : List (DB → DB) :=
  let shares_added := round4 (amountCny / nav)
  let pos := getPosition db (accountId, code)
  let new_shares := match pos with
    | some p => p.shares + shares_added
    | none => shares_added
  let new_cost := match pos with
    | some p => round4 ((p.cost * p.shares + nav * shares_added) / (p.shares + shares_added))
    | none => nav
  [fun d => upsert_position d (accountId, code) new_cost new_shares,
   fun d => insertTxn d (settledAddTxn tid accountId code amountCny confirmDate
      nav shares_added new_cost now)]

/-- Run the first `n` of a commit sequence: the state visible if the
operation fails after `n` commits. -/
def applyCommits (steps : List (DB → DB)) (n : Nat) (db : DB) : DB :=
  (steps.take n).foldl (fun d f => f d) db

/--
`add_position_trade(account_id, code, amount_cny)` from `trade.py`.
The trading-calendar confirm date and the NAV lookup
(`get_nav_on_date`) are external collaborators, passed as parameters;
`now`/`tid` stand for CURRENT_TIMESTAMP and the inserted row id.
-/
def add_position_trade (navLookup : String → String → Option ℚ)
    (accountId : Nat) (code : String) (amountCny : ℚ) (confirmDate : String)
    (now tid : Nat) (db : DB) : DB × AddOutcome :=
  if amountCny ≤ 0 then (db, .rejected)
  else
    match navLookup code confirmDate with
    | some nav =>
        if 0 < nav then
          let shares_added := round4 (amountCny / nav)
          let pos := getPosition db (accountId, code)
          let new_shares := match pos with
            | some p => p.shares + shares_added
            | none => shares_added
          let new_cost := match pos with
            | some p => round4 ((p.cost * p.shares + nav * shares_added) / (p.shares + shares_added))
            | none => nav
          let db' := applyCommits
            (add_trade_commits nav accountId code amountCny confirmDate now tid db) 2 db
          (db', .settled confirmDate nav shares_added new_cost new_shares)
        else
          (insertTxn db (pendingAddTxn tid accountId code amountCny confirmDate),
           .pending confirmDate)
    | none =>
        (insertTxn db (pendingAddTxn tid accountId code amountCny confirmDate),
         .pending confirmDate)

/-- `reduce_position_trade(account_id, code, shares_redeemed)` from `trade.py`. -/
def reduce_position_trade (navLookup : String → String → Option ℚ)
    (accountId : Nat) (code : String) (sharesRedeemed : ℚ) (confirmDate : String)
    (now tid : Nat) (db : DB) : DB × ReduceOutcome :=
  if sharesRedeemed ≤ 0 then (db, .rejected)
  else
    match getPosition db (accountId, code) with
    | none => (db, .rejected)
    | some pos =>
        if pos.shares ≤ 0 then (db, .rejected)
        else if pos.shares < sharesRedeemed then (db, .rejected)
        else
          match navLookup code confirmDate with
          | some nav =>
              if 0 < nav then
                let amount_cny := round2 (sharesRedeemed * nav)
                let new_shares := round4 (pos.shares - sharesRedeemed)
                let new_cost := pos.cost
                let (db1, cost_after) :=
                  if new_shares ≤ 0 then (remove_position db (accountId, code), (0 : ℚ))
                  else (upsert_position db (accountId, code) new_cost new_shares, new_cost)
                let db2 := insertTxn db1 (settledReduceTxn tid accountId code
                  amount_cny sharesRedeemed confirmDate nav cost_after now)
                (db2, .settled confirmDate nav amount_cny new_shares)
              else
                (insertTxn db (pendingReduceTxn tid accountId code sharesRedeemed confirmDate),
                 .pending confirmDate)
          | none =>
              (insertTxn db (pendingReduceTxn tid accountId code sharesRedeemed confirmDate),
               .pending confirmDate)

/-- The scan predicate of the Settlement Reconciler:
`WHERE applied_at IS NULL AND confirm_nav IS NULL`. -/
def scanPending (t : Txn) : Bool :=
  t.appliedAt = none && t.confirmNav = none

/--
One loop iteration of `process_pending_transactions` for a scanned row:
fetch the confirm-date NAV, apply the add / reduce arithmetic and, in a
single update, set confirm_nav, shares_added / amount_cny, cost_after and
applied_at.  Returns the new state and whether the record was applied.
-/
def applyPending1 (navLookup : String → String → Option ℚ) (now : Nat)
    (db : DB) (t : Txn) : DB × Bool :=
  match t.confirmDate with
  | none => (db, false)
  | some cd =>
      match navLookup t.code cd with
      | none => (db, false)
      | some nav =>
          if nav ≤ 0 then (db, false)
          else if t.opType = "add" then
            match t.amountCny with
            | none => (db, false)
            | some amt =>
                if amt = 0 then (db, false)
                else
                  let shares_added := round4 (amt / nav)
                  let pos := getPosition db (t.accountId, t.code)
                  let new_shares := match pos with
                    | some p => p.shares + shares_added
                    | none => shares_added
                  let new_cost := match pos with
                    | some p => round4 ((p.cost * p.shares + nav * shares_added) / (p.shares + shares_added))
                    | none => nav
                  let db1 := upsert_position db (t.accountId, t.code) new_cost new_shares
                  let db2 := updateTxnById db1 t.id (fun u =>
                    { u with confirmNav := some nav, sharesAdded := some shares_added,
                             costAfter := some new_cost, appliedAt := some now })
                  (db2, true)
          else if t.opType = "reduce" then
            match t.sharesRedeemed with
            | none => (db, false)
            | some shr =>
                if shr = 0 then (db, false)
                else
                  match getPosition db (t.accountId, t.code) with
                  | none => (db, false)
                  | some pos =>
                      let amount_cny := round2 (shr * nav)
                      let new_shares := round4 (pos.shares - shr)
                      let cost_after := if 0 < new_shares then pos.cost else (0 : ℚ)
                      let db1 :=
                        if new_shares ≤ 0 then remove_position db (t.accountId, t.code)
                        else upsert_position db (t.accountId, t.code) pos.cost new_shares
                      let db2 := updateTxnById db1 t.id (fun u =>
                        { u with confirmNav := some nav, amountCny := some amount_cny,
                                 costAfter := some cost_after, appliedAt := some now })
                      (db2, true)
          else (db, false)

/-- `process_pending_transactions()` from `trade.py`: scan all records with
applied_at null and confirm_nav null, then apply each in turn, counting the
successfully applied ones. -/
def process_pending_transactions (navLookup : String → String → Option ℚ)
    (now : Nat) (db : DB) : DB × Nat :=
  let pending := db.transactions.filter scanPending
  pending.foldl
    (fun acc t =>
      let r := applyPending1 navLookup now acc.1 t
      (r.1, acc.2 + (if r.2 then 1 else 0)))
    (db, 0)

/-! ### Position Aggregator: the account = 0 (ALL) merge, `account.py` lines 41-56 -/

/-- A row returned by the positions scan feeding `get_all_positions`
(`SELECT .. FROM positions .. WHERE .. shares > 0`). -/
structure PosRow where
  accountId : Nat
  code : String
  cost : ℚ
  shares : ℚ
deriving DecidableEq, Repr

/-- Accumulator entry of the `code_positions` dict: running share total and
running `shares * cost` total for one code. -/
structure MergeAcc where
  shares : ℚ
  totalCostBasis : ℚ
deriving DecidableEq, Repr

/-- Association-list lookup (first match), modelling a Python dict. -/
def lookupA {α : Type} (m : List (String × α)) (c : String) : Option α :=
  match m with
  | [] => none
  | (c', a) :: rest => if c' = c then some a else lookupA rest c

/-- One iteration of the merge loop: add this row's shares and
`shares * cost` into the dict entry for its code (creating the entry
zero-initialised if absent). -/
def mergeStep (m : List (String × MergeAcc)) (r : PosRow) : List (String × MergeAcc) :=
  match m with
  | [] => [(r.code, ⟨r.shares, r.shares * r.cost⟩)]
  | (c, d) :: rest =>
      if c = r.code then
        (c, ⟨d.shares + r.shares, d.totalCostBasis + r.shares * r.cost⟩) :: rest
      else (c, d) :: mergeStep rest r

/-- The `code_positions` dict after the first loop of the account = 0 path. -/
def buildCodePositions (rows : List PosRow) : List (String × MergeAcc) :=
  rows.foldl mergeStep []

/-- The `position_map` of the account = 0 path: for every merged code with
positive shares, weighted-average cost = total cost basis / total shares. -/
def mergedPositionMap (rows : List PosRow) : List (String × Position) :=
  (buildCodePositions rows).filterMap (fun cd =>
    if 0 < cd.2.shares then
      some (cd.1, ⟨cd.2.totalCostBasis / cd.2.shares, cd.2.shares⟩)
    else none)

/-- Shares of `code` summed over the scanned rows. -/
def sumShares (rows : List PosRow) (code : String) : ℚ :=
  ((rows.filter (fun r => r.code = code)).map (fun r => r.shares)).sum

/-- `shares * cost` of `code` summed over the scanned rows. -/
def sumBasis (rows : List PosRow) (code : String) : ℚ :=
  ((rows.filter (fun r => r.code = code)).map (fun r => r.shares * r.cost)).sum

/-! ### Valuation Source Adapter: `get_combined_valuation` in `fund.py` -/

/-- The dict returned by `get_eastmoney_valuation` when the fetch
succeeds (name, dwjz, gsz, gszzl, gztime). -/
structure EmVal where
  name : String
  nav : ℚ
  estimate : ℚ
  estRate : ℚ
  time : String
deriving DecidableEq, Repr

/-- The dict returned by `get_sina_valuation` when the fetch succeeds
(estimate, nav, estRate, time — no name field). -/
structure SinaVal where
  estimate : ℚ
  nav : ℚ
  estRate : ℚ
  time : String
deriving DecidableEq, Repr

/-- The combined valuation dict: every field optional, since either source
may be absent.  `none` models a missing key. -/
structure CombinedVal where
  name : Option String
  nav : Option ℚ
  estimate : Option ℚ
  estRate : Option ℚ
  time : Option String
deriving DecidableEq, Repr

/-- The empty dict `{}`. -/
def CombinedVal.empty : CombinedVal :=
  { name := none, nav := none, estimate := none, estRate := none, time := none }

/-- The primary's dict viewed as the working `data` dict. -/
def emToCombined (e : Option EmVal) : CombinedVal :=
  match e with
  | none => CombinedVal.empty
  | some v => { name := some v.name, nav := some v.nav, estimate := some v.estimate,
                estRate := some v.estRate, time := some v.time }

/-- `data.update(sina_data)`: every key the secondary supplies overwrites
the corresponding entry of `data`; keys it does not supply (name) are kept. -/
def updateWithSina (d : CombinedVal) (s : SinaVal) : CombinedVal :=
  { d with nav := some s.nav, estimate := some s.estimate,
           estRate := some s.estRate, time := some s.time }

/-- `get_combined_valuation(code)` from `fund.py`: query the primary; if it
returned nothing or a zero estimate, query the secondary and overlay its
dict; an empty secondary result leaves `data` unchanged. -/
def get_combined_valuation (em : Option EmVal) (sina : Option SinaVal) : CombinedVal :=
  let data := emToCombined em
  if em = none ∨ data.estimate = some 0 then
    match sina with
    | some s => updateWithSina data s
    | none => data
  else data

/-! ### Notification Reconciler: `check_subscriptions` per-subscription logic -/

/-- Static configuration of one subscription row. -/
structure SubCfg where
  enableVolatility : Bool
  enableDigest : Bool
  thresholdUp : Option ℚ
  thresholdDown : Option ℚ
  digestTime : String
deriving DecidableEq, Repr

/-- Mutable gating state of one subscription row: the two independent
last-dispatch timestamps (stringified, null when never dispatched). -/
structure SubState where
  lastNotifiedAt : Option String
  lastDigestAt : Option String
deriving DecidableEq, Repr

/-- Inputs of one reconciliation pass for one subscription: the day and
time-of-day strings, CURRENT_TIMESTAMP as a string, the memoized valuation
(`none` = empty dict, the pass skips the subscription), and the email
transport outcomes should a dispatch be attempted. -/
structure PassEnv where
  todayStr : String
  currentTimeStr : String
  nowTs : String
  estRate : Option ℚ
  sendVolOk : Bool
  sendDigOk : Bool
deriving DecidableEq, Repr

/-- Python `s.startswith(pre)`, computed on the character lists so that
concrete instances evaluate. -/
def startsWithM (s pre : String) : Bool :=
  decide (s.data.take pre.data.length = pre.data)

/-- Python string `a <= b` (lexicographic by code point), computed on the
character lists. -/
def lexLe : List Char → List Char → Bool
  | [], _ => true
  | _ :: _, [] => false
  | a :: as, b :: bs => if a < b then true else if a = b then lexLe as bs else false

/-- `last_notified and last_notified.startswith(today_str)`. -/
def stampedToday (today : String) (ts : Option String) : Bool :=
  match ts with
  | some s => startsWithM s today
  | none => false

/-- The volatility trigger condition of `check_subscriptions`:
threshold_up truthy, positive and reached, or else threshold_down truthy,
negative and reached. -/
def volTriggered (cfg : SubCfg) (estRate : ℚ) : Bool :=
  (match cfg.thresholdUp with
   | some u => decide (u ≠ 0 ∧ 0 < u ∧ u ≤ estRate)
   | none => false) ||
  (match cfg.thresholdDown with
   | some d => decide (d ≠ 0 ∧ d < 0 ∧ estRate ≤ d)
   | none => false)

/-- The volatility-alert block of `check_subscriptions`: gated by
`enable_volatility` and `last_notified_at` not already dated today; on a
successful send, `last_notified_at` advances to now; on a failed send the
state is untouched. -/
def volPass (cfg : SubCfg) (env : PassEnv) (estRate : ℚ) (st : SubState) :
    SubState × Bool :=
  if cfg.enableVolatility &&
      !(stampedToday env.todayStr st.lastNotifiedAt) &&
      volTriggered cfg estRate then
    if env.sendVolOk then ({ st with lastNotifiedAt := some env.nowTs }, true)
    else (st, false)
  else (st, false)

/-- The daily-digest block of `check_subscriptions`: gated by
`enable_digest`, `last_digest_at` not already dated today, and the current
time being at or after `digest_time`; on a successful send,
`last_digest_at` advances to now. -/
def digPass (cfg : SubCfg) (env : PassEnv) (st : SubState) : SubState × Bool :=
  if cfg.enableDigest &&
      !(stampedToday env.todayStr st.lastDigestAt) &&
      lexLe cfg.digestTime.data env.currentTimeStr.data then
    if env.sendDigOk then ({ st with lastDigestAt := some env.nowTs }, true)
    else (st, false)
  else (st, false)

/-- One pass of `check_subscriptions` for one subscription: skip when the
memoized valuation is empty, else evaluate the volatility block, then the
digest block on the resulting state.  Returns the new state and whether a
volatility alert / digest was dispatched. -/
def checkSubPass (cfg : SubCfg) (env : PassEnv) (st : SubState) :
    SubState × Bool × Bool :=
  match env.estRate with
  | none => (st, false, false)
  | some estRate =>
      let v := volPass cfg env estRate st
      let d := digPass cfg env v.1
      (d.1, v.2, d.2)

/-- A sequence of reconciliation passes over one subscription, counting the
volatility alerts and digests dispatched. -/
def runPasses (cfg : SubCfg) (st : SubState) : List PassEnv → SubState × Nat × Nat
  | [] => (st, 0, 0)
  | env :: rest =>
      let step := checkSubPass cfg env st
      let tail := runPasses cfg step.1 rest
      (tail.1, (if step.2.1 then 1 else 0) + tail.2.1,
               (if step.2.2 then 1 else 0) + tail.2.2)

/-! ### Store lemmas -/

lemma upsertList_cons_same (k : PosKey) (p : Position)
    (rest : List (PosKey × Position)) (c s : ℚ) :
    upsertList ((k, p) :: rest) k c s = (k, ⟨c, s⟩) :: rest := by
  simp [upsertList]

lemma upsertList_cons_diff (k1 k : PosKey) (p : Position)
    (rest : List (PosKey × Position)) (c s : ℚ) (h : ¬ k1 = k) :
    upsertList ((k1, p) :: rest) k c s = (k1, p) :: upsertList rest k c s := by
  simp [upsertList, h]

lemma find_upsertList_self (l : List (PosKey × Position)) (k : PosKey) (c s : ℚ) :
    (upsertList l k c s).find? (fun kp => kp.1 = k) = some (k, ⟨c, s⟩) := by
  induction l with
  | nil => simp [upsertList, List.find?]
  | cons hd tl ih =>
      obtain ⟨k', p⟩ := hd
      by_cases hk : k' = k
      · subst hk
        rw [upsertList_cons_same]
        rw [List.find?_cons_of_pos _ (by simp)]
      · rw [upsertList_cons_diff _ _ _ _ _ _ hk]
        rw [List.find?_cons_of_neg _ (by simpa using hk)]
        exact ih

lemma find_upsertList_other (l : List (PosKey × Position)) (k k' : PosKey) (c s : ℚ)
    (hne : ¬ k' = k) :
    (upsertList l k c s).find? (fun kp => kp.1 = k') = l.find? (fun kp => kp.1 = k') := by
  have hne' : ¬ k = k' := by
    intro h
    exact hne h.symm
  induction l with
  | nil =>
      simp only [upsertList]
      rw [List.find?_cons_of_neg _ (by simpa using hne')]
  | cons hd tl ih =>
      obtain ⟨k1, p⟩ := hd
      by_cases hk : k1 = k
      · subst hk
        rw [upsertList_cons_same]
        rw [List.find?_cons_of_neg _ (by simpa using hne'),
            List.find?_cons_of_neg _ (by simpa using hne')]
      · rw [upsertList_cons_diff _ _ _ _ _ _ hk]
        by_cases hk' : k1 = k'
        · rw [List.find?_cons_of_pos _ (by simpa using hk'),
              List.find?_cons_of_pos _ (by simpa using hk')]
        · rw [List.find?_cons_of_neg _ (by simpa using hk'),
              List.find?_cons_of_neg _ (by simpa using hk')]
          exact ih

lemma getPosition_upsert_self (db : DB) (k : PosKey) (c s : ℚ) :
    getPosition (upsert_position db k c s) k = some ⟨c, s⟩ := by
  simp [getPosition, upsert_position, find_upsertList_self]

lemma getPosition_upsert_other (db : DB) (k k' : PosKey) (c s : ℚ) (hne : ¬ k' = k) :
    getPosition (upsert_position db k c s) k' = getPosition db k' := by
  simp [getPosition, upsert_position, find_upsertList_other _ _ _ _ _ hne]

lemma getPosition_remove_self (db : DB) (k : PosKey) :
    getPosition (remove_position db k) k = none := by
  simp only [getPosition, remove_position]
  have : (db.positions.filter (fun kp => ¬ kp.1 = k)).find? (fun kp => kp.1 = k) = none := by
    rw [List.find?_eq_none]
    intro x hx
    have := List.of_mem_filter hx
    simpa using this
  rw [this]

lemma getPosition_insertTxn (db : DB) (t : Txn) (k : PosKey) :
    getPosition (insertTxn db t) k = getPosition db k := rfl

lemma positions_insertTxn (db : DB) (t : Txn) :
    (insertTxn db t).positions = db.positions := rfl

lemma positions_updateTxnById (db : DB) (tid : Nat) (f : Txn → Txn) :
    (updateTxnById db tid f).positions = db.positions := rfl

lemma mem_upsertList (l : List (PosKey × Position)) (k : PosKey) (c s : ℚ)
    (kp : PosKey × Position) (h : kp ∈ upsertList l k c s) :
    kp = (k, ⟨c, s⟩) ∨ kp ∈ l := by
  induction l with
  | nil => simpa [upsertList] using h
  | cons hd tl ih =>
      obtain ⟨k1, p⟩ := hd
      by_cases hk : k1 = k
      · subst hk
        rw [upsertList_cons_same] at h
        rcases List.mem_cons.mp h with h | h
        · exact Or.inl h
        · exact Or.inr (List.mem_cons_of_mem _ h)
      · rw [upsertList_cons_diff _ _ _ _ _ _ hk] at h
        rcases List.mem_cons.mp h with h | h
        · exact Or.inr (by simp [h])
        · rcases ih h with h' | h'
          · exact Or.inl h'
          · exact Or.inr (List.mem_cons_of_mem _ h')

lemma getPosition_mem (db : DB) (k : PosKey) (p : Position)
    (h : getPosition db k = some p) : (k, p) ∈ db.positions := by
  simp only [getPosition] at h
  cases hf : db.positions.find? (fun kp => kp.1 = k) with
  | none => simp [hf] at h
  | some kp =>
      simp only [hf, Option.some.injEq] at h
      have hmem := List.mem_of_find?_eq_some hf
      obtain ⟨k1, p1⟩ := kp
      have hkey : k1 = k := by simpa using List.find?_some hf
      simp only at h
      subst hkey
      subst h
      exact hmem

/-! ### Claim theorems -/

/-- **C1.**  For every settled "add" trade with price p > 0 and amount
m > 0: if a position (cost c0, shares s0) already exists for
(account, code), `add_position_trade` sets the new shares to s0 + d and
the new cost to round4((c0·s0 + p·d)/(s0 + d)) with d = round4(m / p);
if no position exists, it sets cost = p and shares = d. -/
theorem C1_add_weighted_average_cost
    (navLookup : String → String → Option ℚ) (a : Nat) (code : String)
    (m p : ℚ) (cd : String) (now tid : Nat) (db : DB) (c0 s0 : ℚ)
    (hm : 0 < m) (hnav : navLookup code cd = some p) (hp : 0 < p) :
    (getPosition db (a, code) = some ⟨c0, s0⟩ →
      getPosition (add_position_trade navLookup a code m cd now tid db).1 (a, code) =
        some ⟨round4 ((c0 * s0 + p * round4 (m / p)) / (s0 + round4 (m / p))),
              s0 + round4 (m / p)⟩) ∧
    (getPosition db (a, code) = none →
      getPosition (add_position_trade navLookup a code m cd now tid db).1 (a, code) =
        some ⟨p, round4 (m / p)⟩) := by
  have hm' : ¬ m ≤ 0 := not_le.mpr hm
  constructor
  · intro hpos
    simp only [add_position_trade, if_neg hm', hnav, if_pos hp, applyCommits,
      add_trade_commits, hpos, List.take, List.foldl]
    rw [getPosition_insertTxn, getPosition_upsert_self]
  · intro hpos
    simp only [add_position_trade, if_neg hm', hnav, if_pos hp, applyCommits,
      add_trade_commits, hpos, List.take, List.foldl]
    rw [getPosition_insertTxn, getPosition_upsert_self]

/-- Witness for C1: a concrete settled add on an existing position. -/
theorem C1_witness :
    getPosition
      (add_position_trade (fun _ _ => some 2) 1 "000001" 1000 "2026-01-05" 7 1
        ⟨[((1, "000001"), ⟨1, 100⟩)], []⟩).1 (1, "000001") =
      some ⟨round4 ((1 * 100 + 2 * round4 ((1000 : ℚ) / 2)) / (100 + round4 ((1000 : ℚ) / 2))),
            100 + round4 ((1000 : ℚ) / 2)⟩ :=
  (C1_add_weighted_average_cost (fun _ _ => some 2) 1 "000001" 1000 2 "2026-01-05" 7 1
    ⟨[((1, "000001"), ⟨1, 100⟩)], []⟩ 1 100 (by norm_num) rfl (by norm_num)).1 (by decide)

/-- Shape of the settled branch of `reduce_position_trade` once all
validations pass and a positive NAV is available. -/
lemma reduce_settled_eq
    (navLookup : String → String → Option ℚ) (a : Nat) (code : String)
    (r : ℚ) (cd : String) (now tid : Nat) (db : DB) (c0 s0 p : ℚ)
    (hr' : ¬ r ≤ 0) (hpos : getPosition db (a, code) = some ⟨c0, s0⟩)
    (hs0' : ¬ s0 ≤ 0) (hrs' : ¬ s0 < r)
    (hnav : navLookup code cd = some p) (hp : 0 < p) :
    reduce_position_trade navLookup a code r cd now tid db =
      (insertTxn
        (if round4 (s0 - r) ≤ 0 then remove_position db (a, code)
         else upsert_position db (a, code) c0 (round4 (s0 - r)))
        (settledReduceTxn tid a code (round2 (r * p)) r cd p
          (if round4 (s0 - r) ≤ 0 then 0 else c0) now),
       .settled cd p (round2 (r * p)) (round4 (s0 - r))) := by
  by_cases hns : round4 (s0 - r) ≤ 0
  · simp only [reduce_position_trade, if_neg hr', hpos, if_neg hs0', if_neg hrs',
      hnav, if_pos hp, if_pos hns]
  · simp only [reduce_position_trade, if_neg hr', hpos, if_neg hs0', if_neg hrs',
      hnav, if_pos hp, if_neg hns]

/-- **C2.**  For every settled "reduce" trade on an existing position the
cost basis of the remainder is unchanged, the recorded amount is
round2(sharesRedeemed · price), the new shares are
round4(oldShares − sharesRedeemed), and when the new shares are ≤ 0 the
position row is deleted and the recorded resulting cost is zero. -/
theorem C2_reduce_unchanged_cost
    (navLookup : String → String → Option ℚ) (a : Nat) (code : String)
    (r : ℚ) (cd : String) (now tid : Nat) (db : DB) (c0 s0 p : ℚ)
    (hr : 0 < r) (hpos : getPosition db (a, code) = some ⟨c0, s0⟩)
    (hs0 : 0 < s0) (hrs : r ≤ s0)
    (hnav : navLookup code cd = some p) (hp : 0 < p) :
    (reduce_position_trade navLookup a code r cd now tid db).2 =
      .settled cd p (round2 (r * p)) (round4 (s0 - r)) ∧
    (reduce_position_trade navLookup a code r cd now tid db).1.transactions =
      db.transactions ++ [settledReduceTxn tid a code (round2 (r * p)) r cd p
        (if round4 (s0 - r) ≤ 0 then 0 else c0) now] ∧
    (0 < round4 (s0 - r) →
      getPosition (reduce_position_trade navLookup a code r cd now tid db).1 (a, code) =
        some ⟨c0, round4 (s0 - r)⟩) ∧
    (round4 (s0 - r) ≤ 0 →
      getPosition (reduce_position_trade navLookup a code r cd now tid db).1 (a, code) =
        none) := by
  have h := reduce_settled_eq navLookup a code r cd now tid db c0 s0 p
    (not_le.mpr hr) hpos (not_le.mpr hs0) (not_lt.mpr hrs) hnav hp
  refine ⟨by rw [h], ?_, ?_, ?_⟩
  · rw [h]
    by_cases hns : round4 (s0 - r) ≤ 0
    · rw [if_pos hns]
      rfl
    · rw [if_neg hns]
      rfl
  · intro h0
    have hns : ¬ round4 (s0 - r) ≤ 0 := not_le.mpr h0
    rw [h, if_neg hns]
    rw [getPosition_insertTxn, getPosition_upsert_self]
  · intro h0
    rw [h, if_pos h0]
    rw [getPosition_insertTxn, getPosition_remove_self]

/-- Witness for C2: reducing 200 of 300 shares at NAV 2.5 leaves cost 2
untouched and 100 shares. -/
theorem C2_witness :
    getPosition
      (reduce_position_trade (fun _ _ => some (5 / 2)) 1 "000001" 200 "2026-01-06" 8 2
        ⟨[((1, "000001"), ⟨2, 300⟩)], []⟩).1 (1, "000001") =
      some ⟨2, round4 ((300 : ℚ) - 200)⟩ :=
  (C2_reduce_unchanged_cost (fun _ _ => some (5 / 2)) 1 "000001" 200 "2026-01-06" 8 2
    ⟨[((1, "000001"), ⟨2, 300⟩)], []⟩ 2 300 (5 / 2) (by norm_num) (by decide)
    (by norm_num) (by norm_num) rfl (by norm_num)).2.2.1
    (by norm_num [round4, round_eq])

/-- **C5, counterexample.**  The claim says the Position update and the
Settled Trade Record insert are committed together atomically, so that a
failure partway leaves neither visible.  In the source `upsert_position`
commits on its own connection before the trade connection commits the
record insert: executing only the first of the two commits of a concrete
settled add leaves the position change visible with no record inserted,
refuting the claim. -/
theorem C5_counterexample :
    (add_trade_commits 2 1 "000001" 1000 "2026-01-02" 5 1 ⟨[], []⟩).length = 2 ∧
    (applyCommits (add_trade_commits 2 1 "000001" 1000 "2026-01-02" 5 1 ⟨[], []⟩) 1
        ⟨[], []⟩).positions =
      [((1, "000001"), ⟨2, round4 ((1000 : ℚ) / 2)⟩)] ∧
    (applyCommits (add_trade_commits 2 1 "000001" 1000 "2026-01-02" 5 1 ⟨[], []⟩) 1
        ⟨[], []⟩).transactions = [] := by
  refine ⟨rfl, ?_, rfl⟩
  rfl

/-- **C5, amended.**  The settled add path performs two separate commits,
position upsert first, then trade-record insert: the final state is the
composition of the two, and the state visible after only the first commit
already shows the updated position while the transactions log is still
unchanged. -/
theorem C5_two_separate_commits
    (navLookup : String → String → Option ℚ) (a : Nat) (code : String)
    (m p : ℚ) (cd : String) (now tid : Nat) (db : DB)
    (hm : 0 < m) (hnav : navLookup code cd = some p) (hp : 0 < p) :
    (add_trade_commits p a code m cd now tid db).length = 2 ∧
    (add_position_trade navLookup a code m cd now tid db).1 =
      applyCommits (add_trade_commits p a code m cd now tid db) 2 db ∧
    (applyCommits (add_trade_commits p a code m cd now tid db) 1 db).transactions =
      db.transactions ∧
    getPosition (applyCommits (add_trade_commits p a code m cd now tid db) 1 db) (a, code) =
      some ⟨(match getPosition db (a, code) with
             | some q => round4 ((q.cost * q.shares + p * round4 (m / p)) /
                 (q.shares + round4 (m / p)))
             | none => p),
            (match getPosition db (a, code) with
             | some q => q.shares + round4 (m / p)
             | none => round4 (m / p))⟩ := by
  have hm' : ¬ m ≤ 0 := not_le.mpr hm
  refine ⟨rfl, ?_, ?_, ?_⟩
  · simp only [add_position_trade, if_neg hm', hnav, if_pos hp]
  · cases hpos : getPosition db (a, code) <;>
      simp only [add_trade_commits, applyCommits, hpos, List.take, List.foldl] <;> rfl
  · cases hpos : getPosition db (a, code) <;>
      simp only [add_trade_commits, applyCommits, hpos, List.take, List.foldl] <;>
      rw [getPosition_upsert_self]

/-- Witness for the amended C5 at a concrete settled add. -/
theorem C5_witness :
    getPosition
      (applyCommits (add_trade_commits 2 1 "000001" 1000 "2026-01-02" 5 1
        ⟨[], []⟩) 1 ⟨[], []⟩) (1, "000001") =
      some ⟨(match getPosition (⟨[], []⟩ : DB) (1, "000001") with
             | some q => round4 ((q.cost * q.shares + 2 * round4 ((1000 : ℚ) / 2)) /
                 (q.shares + round4 ((1000 : ℚ) / 2)))
             | none => 2),
            (match getPosition (⟨[], []⟩ : DB) (1, "000001") with
             | some q => q.shares + round4 ((1000 : ℚ) / 2)
             | none => round4 ((1000 : ℚ) / 2))⟩ :=
  (C5_two_separate_commits (fun _ _ => some 2) 1 "000001" 1000 2 "2026-01-02" 5 1
    ⟨[], []⟩ (by norm_num) rfl (by norm_num)).2.2.2

lemma mem_updateTxnById_of_eq (db : DB) (tid : Nat) (g : Txn → Txn)
    (P : Txn → Prop) (hg : ∀ u, P (g u)) :
    ∀ u ∈ (updateTxnById db tid g).transactions, u.id = tid → P u := by
  intro u hu huid
  simp only [updateTxnById, List.mem_map] at hu
  obtain ⟨v, _, hv⟩ := hu
  by_cases hvid : v.id = tid
  · rw [if_pos hvid] at hv
    rw [← hv]
    exact hg v
  · rw [if_neg hvid] at hv
    rw [← hv] at huid
    exact absurd huid hvid

/-- Shape of the reconciler's add branch once the record passes the scan
checks and a positive NAV is available. -/
lemma applyPending1_add_eq
    (navLookup : String → String → Option ℚ) (now : Nat) (db : DB) (t : Txn)
    (cd : String) (nav amt : ℚ)
    (hcd : t.confirmDate = some cd) (hnv : navLookup t.code cd = some nav)
    (hle : ¬ nav ≤ 0) (hop : t.opType = "add")
    (hamt : t.amountCny = some amt) (hz : ¬ amt = 0) :
    applyPending1 navLookup now db t =
      (updateTxnById
        (upsert_position db (t.accountId, t.code)
          (match getPosition db (t.accountId, t.code) with
           | some p => round4 ((p.cost * p.shares + nav * round4 (amt / nav)) /
               (p.shares + round4 (amt / nav)))
           | none => nav)
          (match getPosition db (t.accountId, t.code) with
           | some p => p.shares + round4 (amt / nav)
           | none => round4 (amt / nav)))
        t.id (fun u => { u with
                         confirmNav := some nav
                         sharesAdded := some (round4 (amt / nav))
                         costAfter := some (match getPosition db (t.accountId, t.code) with
                           | some p => round4 ((p.cost * p.shares + nav * round4 (amt / nav)) /
                               (p.shares + round4 (amt / nav)))
                           | none => nav)
                         appliedAt := some now }), true) := by
  have hop' : (t.opType = "add") = True := by
    rw [hop]
    simp
  simp only [applyPending1, hcd, hnv, if_neg hle, hop', if_true, hamt, if_neg hz]

/-- Shape of the reconciler's reduce branch once the record passes the
scan checks, a positive NAV is available and the position still exists. -/
lemma applyPending1_reduce_eq
    (navLookup : String → String → Option ℚ) (now : Nat) (db : DB) (t : Txn)
    (cd : String) (nav shr : ℚ) (pos : Position)
    (hcd : t.confirmDate = some cd) (hnv : navLookup t.code cd = some nav)
    (hle : ¬ nav ≤ 0) (hop : t.opType = "reduce")
    (hshr : t.sharesRedeemed = some shr) (hz : ¬ shr = 0)
    (hpos : getPosition db (t.accountId, t.code) = some pos) :
    applyPending1 navLookup now db t =
      (updateTxnById
        (if round4 (pos.shares - shr) ≤ 0 then remove_position db (t.accountId, t.code)
         else upsert_position db (t.accountId, t.code) pos.cost (round4 (pos.shares - shr)))
        t.id (fun u => { u with
                         confirmNav := some nav
                         amountCny := some (round2 (shr * nav))
                         costAfter := some (if 0 < round4 (pos.shares - shr) then pos.cost else 0)
                         appliedAt := some now }), true) := by
  have hop1 : (t.opType = "add") = False := by
    rw [hop]
    simp
  have hop2 : (t.opType = "reduce") = True := by
    rw [hop]
    simp
  simp only [applyPending1, hcd, hnv, if_neg hle, hop1, if_false, hop2, if_true,
    hshr, if_neg hz, hpos]

/-- Skip shape of the reconciler's reduce branch when the position is
missing: the record is left untouched and not counted. -/
lemma applyPending1_reduce_missing_eq
    (navLookup : String → String → Option ℚ) (now : Nat) (db : DB) (t : Txn)
    (cd : String) (nav shr : ℚ)
    (hcd : t.confirmDate = some cd) (hnv : navLookup t.code cd = some nav)
    (hle : ¬ nav ≤ 0) (hop : t.opType = "reduce")
    (hshr : t.sharesRedeemed = some shr) (hz : ¬ shr = 0)
    (hpos : getPosition db (t.accountId, t.code) = none) :
    applyPending1 navLookup now db t = (db, false) := by
  have hop1 : (t.opType = "add") = False := by
    rw [hop]
    simp
  have hop2 : (t.opType = "reduce") = True := by
    rw [hop]
    simp
  simp only [applyPending1, hcd, hnv, if_neg hle, hop1, if_false, hop2, if_true,
    hshr, if_neg hz, hpos]

/-- **C4.**  A Trade Record transitions Pending → Settled at most once:
on a store whose records all fail the scan predicate
(applied_at null ∧ confirm_nav null), a re-run of
`process_pending_transactions` mutates nothing and applies zero records;
and whenever the reconciler applies a record (add or reduce branch), the
update sets confirm_nav together with applied_at on that record, removing
it from the scan set. -/
theorem C4_settle_at_most_once :
    (∀ (navLookup : String → String → Option ℚ) (now : Nat) (db : DB),
      (∀ t ∈ db.transactions, ¬ (t.appliedAt = none ∧ t.confirmNav = none)) →
      process_pending_transactions navLookup now db = (db, 0)) ∧
    (∀ (navLookup : String → String → Option ℚ) (now : Nat) (db : DB) (t : Txn)
        (cd : String) (nav amt : ℚ),
      t.confirmDate = some cd → navLookup t.code cd = some nav → ¬ nav ≤ 0 →
      t.opType = "add" → t.amountCny = some amt → ¬ amt = 0 →
      (applyPending1 navLookup now db t).2 = true ∧
      ∀ u ∈ (applyPending1 navLookup now db t).1.transactions, u.id = t.id →
        u.appliedAt = some now ∧ u.confirmNav ≠ none) ∧
    (∀ (navLookup : String → String → Option ℚ) (now : Nat) (db : DB) (t : Txn)
        (cd : String) (nav shr : ℚ) (pos : Position),
      t.confirmDate = some cd → navLookup t.code cd = some nav → ¬ nav ≤ 0 →
      t.opType = "reduce" → t.sharesRedeemed = some shr → ¬ shr = 0 →
      getPosition db (t.accountId, t.code) = some pos →
      (applyPending1 navLookup now db t).2 = true ∧
      ∀ u ∈ (applyPending1 navLookup now db t).1.transactions, u.id = t.id →
        u.appliedAt = some now ∧ u.confirmNav ≠ none) := by
  refine ⟨?_, ?_, ?_⟩
  · intro navLookup now db h
    have hfilter : db.transactions.filter scanPending = [] := by
      rw [List.filter_eq_nil_iff]
      intro t ht
      simp only [scanPending, Bool.and_eq_true, decide_eq_true_eq]
      intro hcontra
      exact h t ht ⟨hcontra.1, hcontra.2⟩
    simp only [process_pending_transactions, hfilter, List.foldl]
  · intro navLookup now db t cd nav amt hcd hnv hle hop hamt hz
    rw [applyPending1_add_eq navLookup now db t cd nav amt hcd hnv hle hop hamt hz]
    refine ⟨rfl, ?_⟩
    exact mem_updateTxnById_of_eq _ _ _
      (fun u => u.appliedAt = some now ∧ u.confirmNav ≠ none)
      (fun v => ⟨rfl, by simp⟩)
  · intro navLookup now db t cd nav shr pos hcd hnv hle hop hshr hz hpos
    rw [applyPending1_reduce_eq navLookup now db t cd nav shr pos hcd hnv hle hop hshr hz hpos]
    refine ⟨rfl, ?_⟩
    exact mem_updateTxnById_of_eq _ _ _
      (fun u => u.appliedAt = some now ∧ u.confirmNav ≠ none)
      (fun v => ⟨rfl, by simp⟩)

/-- Witness for C4: a store holding one settled add record is untouched by
a reconciler re-run. -/
theorem C4_witness :
    process_pending_transactions (fun _ _ => some 2) 9
      ⟨[((1, "000001"), ⟨2, 500⟩)],
       [settledAddTxn 1 1 "000001" 1000 "2026-01-02" 2 500 2 5]⟩ =
      (⟨[((1, "000001"), ⟨2, 500⟩)],
        [settledAddTxn 1 1 "000001" 1000 "2026-01-02" 2 500 2 5]⟩, 0) :=
  C4_settle_at_most_once.1 (fun _ _ => some 2) 9
    ⟨[((1, "000001"), ⟨2, 500⟩)],
     [settledAddTxn 1 1 "000001" 1000 "2026-01-02" 2 500 2 5]⟩
    (by decide)

/-- **C6, counterexample.**  The claim says a position with shares == 0 is
never written.  But an "add" whose amount is positive yet so small that
`round4(amount / nav)` rounds to zero shares — here 0.0004 CNY at NAV 10,
so `round(0.00004, 4) = 0` — persists a brand-new row with shares = 0
instead of deleting or skipping it, refuting the claim. -/
theorem C6_counterexample :
    getPosition
      (add_position_trade (fun _ _ => some 10) 1 "000001" (1 / 2500) "2026-01-02" 5 1
        ⟨[], []⟩).1 (1, "000001") = some ⟨10, 0⟩ := by
  have hΔ : round4 ((1 : ℚ) / 2500 / 10) = 0 := by
    norm_num [round4, round_eq]
  have hm : ¬ (1 : ℚ) / 2500 ≤ 0 := by norm_num
  simp only [add_position_trade, if_neg hm, if_pos (by norm_num : (0:ℚ) < 10),
    applyCommits, add_trade_commits, List.take, List.foldl]
  rw [getPosition_insertTxn]
  have : getPosition (⟨[], []⟩ : DB) (1, "000001") = none := rfl
  rw [this]
  rw [hΔ]
  rw [getPosition_upsert_self]

/-- **C6, amended.**  reduceTrade and the reconciler preserve the
positive-shares invariant unconditionally (rows reaching shares ≤ 0 are
deleted); addTrade and the reconciler's add branch preserve it provided
the rounded shares delta round4(amount/price) is positive — when the
delta rounds to 0 and no prior position exists, a zero-share row is
written (see the counterexample). -/
theorem C6_positive_shares_invariant :
    (∀ (navLookup : String → String → Option ℚ) (a : Nat) (code : String)
        (r : ℚ) (cd : String) (now tid : Nat) (db : DB),
      (∀ kp ∈ db.positions, 0 < kp.2.shares) →
      ∀ kp ∈ (reduce_position_trade navLookup a code r cd now tid db).1.positions,
        0 < kp.2.shares) ∧
    (∀ (navLookup : String → String → Option ℚ) (a : Nat) (code : String)
        (m p : ℚ) (cd : String) (now tid : Nat) (db : DB),
      (∀ kp ∈ db.positions, 0 < kp.2.shares) →
      navLookup code cd = some p → 0 < p → 0 < round4 (m / p) →
      ∀ kp ∈ (add_position_trade navLookup a code m cd now tid db).1.positions,
        0 < kp.2.shares) ∧
    (∀ (navLookup : String → String → Option ℚ) (now : Nat) (db : DB) (t : Txn)
        (cd : String) (nav shr : ℚ) (pos : Position),
      (∀ kp ∈ db.positions, 0 < kp.2.shares) →
      t.confirmDate = some cd → navLookup t.code cd = some nav → ¬ nav ≤ 0 →
      t.opType = "reduce" → t.sharesRedeemed = some shr → ¬ shr = 0 →
      getPosition db (t.accountId, t.code) = some pos →
      ∀ kp ∈ (applyPending1 navLookup now db t).1.positions, 0 < kp.2.shares) ∧
    (∀ (navLookup : String → String → Option ℚ) (now : Nat) (db : DB) (t : Txn)
        (cd : String) (nav amt : ℚ),
      (∀ kp ∈ db.positions, 0 < kp.2.shares) →
      t.confirmDate = some cd → navLookup t.code cd = some nav → ¬ nav ≤ 0 →
      t.opType = "add" → t.amountCny = some amt → ¬ amt = 0 →
      0 < round4 (amt / nav) →
      ∀ kp ∈ (applyPending1 navLookup now db t).1.positions, 0 < kp.2.shares) := by
  refine ⟨?_, ?_, ?_, ?_⟩
  · intro navLookup a code r cd now tid db hall kp hkp
    by_cases hr : r ≤ 0
    · simp only [reduce_position_trade, if_pos hr] at hkp
      exact hall kp hkp
    · cases hpos : getPosition db (a, code) with
      | none =>
          simp only [reduce_position_trade, if_neg hr, hpos] at hkp
          exact hall kp hkp
      | some pos =>
          by_cases hs : pos.shares ≤ 0
          · simp only [reduce_position_trade, if_neg hr, hpos, if_pos hs] at hkp
            exact hall kp hkp
          · by_cases hlt : pos.shares < r
            · simp only [reduce_position_trade, if_neg hr, hpos, if_neg hs,
                if_pos hlt] at hkp
              exact hall kp hkp
            · cases hnv : navLookup code cd with
              | none =>
                  simp only [reduce_position_trade, if_neg hr, hpos, if_neg hs,
                    if_neg hlt, hnv] at hkp
                  exact hall kp hkp
              | some nav =>
                  by_cases hpnav : 0 < nav
                  · rw [reduce_settled_eq navLookup a code r cd now tid db
                      pos.cost pos.shares nav hr hpos hs hlt hnv hpnav] at hkp
                    by_cases hns : round4 (pos.shares - r) ≤ 0
                    · rw [if_pos hns] at hkp
                      exact hall kp (List.mem_of_mem_filter hkp)
                    · rw [if_neg hns] at hkp
                      rcases mem_upsertList _ _ _ _ kp hkp with h | h
                      · rw [h]
                        exact not_le.mp hns
                      · exact hall kp h
                  · simp only [reduce_position_trade, if_neg hr, hpos, if_neg hs,
                      if_neg hlt, hnv, if_neg hpnav] at hkp
                    exact hall kp hkp
  · intro navLookup a code m p cd now tid db hall hnav hp hΔ kp hkp
    by_cases hm : m ≤ 0
    · simp only [add_position_trade, if_pos hm] at hkp
      exact hall kp hkp
    · simp only [add_position_trade, if_neg hm, hnav, if_pos hp, applyCommits,
        add_trade_commits, List.take, List.foldl] at hkp
      cases hpos : getPosition db (a, code) with
      | some q =>
          rw [hpos] at hkp
          rcases mem_upsertList _ _ _ _ kp hkp with h | h
          · rw [h]
            have hq : 0 < q.shares := hall ((a, code), q) (getPosition_mem db _ q hpos)
            exact add_pos hq hΔ
          · exact hall kp h
      | none =>
          rw [hpos] at hkp
          rcases mem_upsertList _ _ _ _ kp hkp with h | h
          · rw [h]
            exact hΔ
          · exact hall kp h
  · intro navLookup now db t cd nav shr pos hall hcd hnv hle hop hshr hz hpos kp hkp
    rw [applyPending1_reduce_eq navLookup now db t cd nav shr pos
      hcd hnv hle hop hshr hz hpos] at hkp
    by_cases hns : round4 (pos.shares - shr) ≤ 0
    · rw [if_pos hns] at hkp
      exact hall kp (List.mem_of_mem_filter hkp)
    · rw [if_neg hns] at hkp
      rcases mem_upsertList _ _ _ _ kp hkp with h | h
      · rw [h]
        exact not_le.mp hns
      · exact hall kp h
  · intro navLookup now db t cd nav amt hall hcd hnv hle hop hamt hz hΔ kp hkp
    rw [applyPending1_add_eq navLookup now db t cd nav amt hcd hnv hle hop hamt hz] at hkp
    cases hpos : getPosition db (t.accountId, t.code) with
    | some q =>
        rw [hpos] at hkp
        rcases mem_upsertList _ _ _ _ kp hkp with h | h
        · rw [h]
          have hq : 0 < q.shares := hall ((t.accountId, t.code), q)
            (getPosition_mem db _ q hpos)
          exact add_pos hq hΔ
        · exact hall kp h
    | none =>
        rw [hpos] at hkp
        rcases mem_upsertList _ _ _ _ kp hkp with h | h
        · rw [h]
          exact hΔ
        · exact hall kp h

/-- Witness for the amended C6: a concrete reduce that deletes the row
keeps every remaining row's shares positive. -/
theorem C6_witness :
    ∀ kp ∈ (reduce_position_trade (fun _ _ => some 2) 1 "000001" 300 "2026-01-06" 8 2
      ⟨[((1, "000001"), ⟨2, 300⟩), ((1, "000002"), ⟨1, 50⟩)], []⟩).1.positions,
      0 < kp.2.shares :=
  C6_positive_shares_invariant.1 (fun _ _ => some 2) 1 "000001" 300 "2026-01-06" 8 2
    ⟨[((1, "000001"), ⟨2, 300⟩), ((1, "000002"), ⟨1, 50⟩)], []⟩
    (by decide)

lemma filter_scanPending_nil (ts : List Txn)
    (h : ∀ t ∈ ts, ¬ (t.appliedAt = none ∧ t.confirmNav = none)) :
    ts.filter scanPending = [] := by
  rw [List.filter_eq_nil_iff]
  intro t ht
  simp only [scanPending, Bool.and_eq_true, decide_eq_true_eq]
  intro hcontra
  exact h t ht ⟨hcontra.1, hcontra.2⟩

/-- **C3.**  A trade entered while the settlement NAV is unavailable
writes a Pending record and leaves the position untouched; once the
Settlement Reconciler applies it with price p, the resulting positions
equal those of the synchronous settlement with price p from the same
prior position — the reconciler applies exactly the same cost/shares
arithmetic, for "add" and for "reduce". -/
theorem C3_pending_then_reconcile_eq_sync :
    (∀ (navLookup : String → String → Option ℚ) (a : Nat) (code : String)
        (m : ℚ) (cd : String) (now1 now2 now3 tid tid' : Nat) (db : DB) (p : ℚ),
      (∀ t ∈ db.transactions, ¬ (t.appliedAt = none ∧ t.confirmNav = none)) →
      0 < m → navLookup code cd = some p → 0 < p →
      (add_position_trade (fun _ _ => none) a code m cd now1 tid db).2 = .pending cd ∧
      (add_position_trade (fun _ _ => none) a code m cd now1 tid db).1.positions =
        db.positions ∧
      (process_pending_transactions navLookup now2
          (add_position_trade (fun _ _ => none) a code m cd now1 tid db).1).1.positions =
        (add_position_trade navLookup a code m cd now3 tid' db).1.positions) ∧
    (∀ (navLookup : String → String → Option ℚ) (a : Nat) (code : String)
        (r : ℚ) (cd : String) (now1 now2 now3 tid tid' : Nat) (db : DB) (p c0 s0 : ℚ),
      (∀ t ∈ db.transactions, ¬ (t.appliedAt = none ∧ t.confirmNav = none)) →
      0 < r → getPosition db (a, code) = some ⟨c0, s0⟩ → 0 < s0 → r ≤ s0 →
      navLookup code cd = some p → 0 < p →
      (reduce_position_trade (fun _ _ => none) a code r cd now1 tid db).2 = .pending cd ∧
      (reduce_position_trade (fun _ _ => none) a code r cd now1 tid db).1.positions =
        db.positions ∧
      (process_pending_transactions navLookup now2
          (reduce_position_trade (fun _ _ => none) a code r cd now1 tid db).1).1.positions =
        (reduce_position_trade navLookup a code r cd now3 tid' db).1.positions) := by
  constructor
  · intro navLookup a code m cd now1 now2 now3 tid tid' db p hclean hm hnav hp
    have hm' : ¬ m ≤ 0 := not_le.mpr hm
    have hdb1 : (add_position_trade (fun _ _ => none) a code m cd now1 tid db).1 =
        insertTxn db (pendingAddTxn tid a code m cd) := by
      simp only [add_position_trade, if_neg hm']
    refine ⟨by simp only [add_position_trade, if_neg hm'], by rw [hdb1]; rfl, ?_⟩
    rw [hdb1]
    have hfilter : (insertTxn db (pendingAddTxn tid a code m cd)).transactions.filter
        scanPending = [pendingAddTxn tid a code m cd] := by
      show (db.transactions ++ [pendingAddTxn tid a code m cd]).filter scanPending = _
      rw [List.filter_append, filter_scanPending_nil db.transactions hclean]
      rfl
    simp only [process_pending_transactions, hfilter, List.foldl]
    rw [applyPending1_add_eq navLookup now2 (insertTxn db (pendingAddTxn tid a code m cd))
      (pendingAddTxn tid a code m cd) cd p m rfl hnav (not_le.mpr hp) rfl rfl
      (by exact fun h => absurd h (ne_of_gt hm))]
    simp only [add_position_trade, if_neg hm', hnav, if_pos hp, applyCommits,
      add_trade_commits, List.take, List.foldl]
    rfl
  · intro navLookup a code r cd now1 now2 now3 tid tid' db p c0 s0
      hclean hr hpos hs0 hrs hnav hp
    have hr' : ¬ r ≤ 0 := not_le.mpr hr
    have hs0' : ¬ s0 ≤ 0 := not_le.mpr hs0
    have hrs' : ¬ s0 < r := not_lt.mpr hrs
    have hdb1 : (reduce_position_trade (fun _ _ => none) a code r cd now1 tid db).1 =
        insertTxn db (pendingReduceTxn tid a code r cd) := by
      simp only [reduce_position_trade, if_neg hr', hpos, if_neg hs0', if_neg hrs']
    refine ⟨by simp only [reduce_position_trade, if_neg hr', hpos, if_neg hs0',
      if_neg hrs'], by rw [hdb1]; rfl, ?_⟩
    rw [hdb1]
    have hfilter : (insertTxn db (pendingReduceTxn tid a code r cd)).transactions.filter
        scanPending = [pendingReduceTxn tid a code r cd] := by
      show (db.transactions ++ [pendingReduceTxn tid a code r cd]).filter scanPending = _
      rw [List.filter_append, filter_scanPending_nil db.transactions hclean]
      rfl
    simp only [process_pending_transactions, hfilter, List.foldl]
    rw [applyPending1_reduce_eq navLookup now2
      (insertTxn db (pendingReduceTxn tid a code r cd))
      (pendingReduceTxn tid a code r cd) cd p r ⟨c0, s0⟩ rfl hnav (not_le.mpr hp) rfl rfl
      (by exact fun h => absurd h (ne_of_gt hr)) hpos]
    rw [reduce_settled_eq navLookup a code r cd now3 tid' db c0 s0 p
      hr' hpos hs0' hrs' hnav hp]
    by_cases hns : round4 (s0 - r) ≤ 0
    · rw [if_pos hns, if_pos hns]
      rfl
    · rw [if_neg hns, if_neg hns]
      rfl

/-- Witness for C3: a concrete pending add reconciled at NAV 2 yields the
same positions as the synchronous settlement. -/
theorem C3_witness :
    (process_pending_transactions (fun _ _ => some 2) 9
        (add_position_trade (fun _ _ => none) 1 "000001" 1000 "2026-01-06" 5 1
          ⟨[((1, "000001"), ⟨1, 100⟩)], []⟩).1).1.positions =
      (add_position_trade (fun _ _ => some 2) 1 "000001" 1000 "2026-01-06" 6 2
        ⟨[((1, "000001"), ⟨1, 100⟩)], []⟩).1.positions :=
  (C3_pending_then_reconcile_eq_sync.1 (fun _ _ => some 2) 1 "000001" 1000 "2026-01-06"
    5 9 6 1 2 ⟨[((1, "000001"), ⟨1, 100⟩)], []⟩ 2
    (by decide) (by norm_num) rfl (by norm_num)).2.2

lemma round4_nonpos {x : ℚ} (hx : x ≤ 0) : round4 x ≤ 0 := by
  have h2 : round (x * 10000) ≤ round (0 : ℚ) := by
    rw [round_eq, round_eq]
    exact Int.floor_mono (by linarith)
  rw [round_zero] at h2
  have h3 : ((round (x * 10000) : ℤ) : ℚ) ≤ 0 := by exact_mod_cast h2
  exact div_nonpos_iff.mpr (Or.inr ⟨h3, by norm_num⟩)

/-- **C10.**  The Settlement Reconciler performs no insufficiency re-check
when applying a pending reduce: whenever the recorded shares_redeemed is
at least the position's current shares, the record still settles — the
recorded amount is round2(shares_redeemed · price), the recorded resulting
cost is 0, applied_at is set — and the position row is deleted; only a
completely missing position makes the reconciler skip the record and leave
it pending. -/
theorem C10_reduce_apply_without_recheck :
    (∀ (navLookup : String → String → Option ℚ) (now : Nat) (db : DB) (t : Txn)
        (cd : String) (nav shr : ℚ) (pos : Position),
      t.confirmDate = some cd → navLookup t.code cd = some nav → ¬ nav ≤ 0 →
      t.opType = "reduce" → t.sharesRedeemed = some shr → ¬ shr = 0 →
      getPosition db (t.accountId, t.code) = some pos →
      pos.shares ≤ shr →
      (applyPending1 navLookup now db t).2 = true ∧
      getPosition (applyPending1 navLookup now db t).1 (t.accountId, t.code) = none ∧
      (∀ u ∈ (applyPending1 navLookup now db t).1.transactions, u.id = t.id →
        u.amountCny = some (round2 (shr * nav)) ∧ u.costAfter = some 0 ∧
        u.appliedAt = some now)) ∧
    (∀ (navLookup : String → String → Option ℚ) (now : Nat) (db : DB) (t : Txn)
        (cd : String) (nav shr : ℚ),
      t.confirmDate = some cd → navLookup t.code cd = some nav → ¬ nav ≤ 0 →
      t.opType = "reduce" → t.sharesRedeemed = some shr → ¬ shr = 0 →
      getPosition db (t.accountId, t.code) = none →
      applyPending1 navLookup now db t = (db, false)) := by
  constructor
  · intro navLookup now db t cd nav shr pos hcd hnv hle hop hshr hz hpos hinsuff
    have hns : round4 (pos.shares - shr) ≤ 0 := round4_nonpos (by linarith)
    have hns' : ¬ 0 < round4 (pos.shares - shr) := not_lt.mpr hns
    rw [applyPending1_reduce_eq navLookup now db t cd nav shr pos
      hcd hnv hle hop hshr hz hpos]
    refine ⟨rfl, ?_, ?_⟩
    · rw [if_pos hns]
      show getPosition (updateTxnById (remove_position db (t.accountId, t.code)) _ _)
        (t.accountId, t.code) = none
      exact getPosition_remove_self db (t.accountId, t.code)
    · rw [if_pos hns]
      exact mem_updateTxnById_of_eq _ _ _
        (fun u => u.amountCny = some (round2 (shr * nav)) ∧ u.costAfter = some 0 ∧
          u.appliedAt = some now)
        (fun v => ⟨rfl, by rw [if_neg hns'], rfl⟩)
  · intro navLookup now db t cd nav shr hcd hnv hle hop hshr hz hpos
    exact applyPending1_reduce_missing_eq navLookup now db t cd nav shr
      hcd hnv hle hop hshr hz hpos

/-- Witness for C10: a pending reduce of 500 shares against a position
holding only 300 still settles and deletes the row. -/
theorem C10_witness :
    getPosition
      (applyPending1 (fun _ _ => some 2) 9
        ⟨[((1, "000001"), ⟨2, 300⟩)], [pendingReduceTxn 1 1 "000001" 500 "2026-01-06"]⟩
        (pendingReduceTxn 1 1 "000001" 500 "2026-01-06")).1 (1, "000001") = none :=
  (C10_reduce_apply_without_recheck.1 (fun _ _ => some 2) 9
    ⟨[((1, "000001"), ⟨2, 300⟩)], [pendingReduceTxn 1 1 "000001" 500 "2026-01-06"]⟩
    (pendingReduceTxn 1 1 "000001" 500 "2026-01-06") "2026-01-06" 2 500 ⟨2, 300⟩
    rfl rfl (by norm_num) rfl rfl (by norm_num) (by decide) (by norm_num)).2.1

/-! ### Lemmas on the account = 0 merge -/

lemma lookupA_mergeStep_self (m : List (String × MergeAcc)) (r : PosRow) :
    lookupA (mergeStep m r) r.code =
      some (match lookupA m r.code with
            | some d => ⟨d.shares + r.shares, d.totalCostBasis + r.shares * r.cost⟩
            | none => ⟨r.shares, r.shares * r.cost⟩) := by
  induction m with
  | nil => simp [mergeStep, lookupA]
  | cons hd tl ih =>
      obtain ⟨c, d⟩ := hd
      by_cases hc : c = r.code
      · subst hc
        simp [mergeStep, lookupA]
      · simp only [mergeStep, if_neg hc, lookupA, if_neg hc]
        exact ih

lemma lookupA_mergeStep_other (m : List (String × MergeAcc)) (r : PosRow)
    (c : String) (h : ¬ c = r.code) :
    lookupA (mergeStep m r) c = lookupA m c := by
  induction m with
  | nil =>
      simp only [mergeStep, lookupA]
      rw [if_neg (fun hc => h hc.symm)]
  | cons hd tl ih =>
      obtain ⟨c1, d⟩ := hd
      by_cases hc1 : c1 = r.code
      · subst hc1
        simp only [mergeStep, if_pos rfl, lookupA]
        rw [if_neg (fun hc => h hc.symm), if_neg (fun hc => h hc.symm)]
      · simp only [mergeStep, if_neg hc1, lookupA]
        by_cases hc : c1 = c
        · rw [if_pos hc, if_pos hc]
        · rw [if_neg hc, if_neg hc]
          exact ih

lemma mergeStep_cons_same (c : String) (d : MergeAcc)
    (tl : List (String × MergeAcc)) (r : PosRow) (h : c = r.code) :
    mergeStep ((c, d) :: tl) r =
      (c, ⟨d.shares + r.shares, d.totalCostBasis + r.shares * r.cost⟩) :: tl := by
  simp [mergeStep, h]

lemma mergeStep_cons_diff (c : String) (d : MergeAcc)
    (tl : List (String × MergeAcc)) (r : PosRow) (h : ¬ c = r.code) :
    mergeStep ((c, d) :: tl) r = (c, d) :: mergeStep tl r := by
  simp [mergeStep, h]

lemma sumShares_cons (r : PosRow) (rest : List PosRow) (code : String) :
    sumShares (r :: rest) code =
      (if r.code = code then r.shares else 0) + sumShares rest code := by
  by_cases h : r.code = code
  · simp [sumShares, List.filter, h]
  · simp [sumShares, List.filter, h]

lemma sumBasis_cons (r : PosRow) (rest : List PosRow) (code : String) :
    sumBasis (r :: rest) code =
      (if r.code = code then r.shares * r.cost else 0) + sumBasis rest code := by
  by_cases h : r.code = code
  · simp [sumBasis, List.filter, h]
  · simp [sumBasis, List.filter, h]

lemma lookupA_build (rows : List PosRow) (m : List (String × MergeAcc)) (code : String) :
    lookupA (rows.foldl mergeStep m) code =
      match lookupA m code with
      | some d => some ⟨d.shares + sumShares rows code,
                        d.totalCostBasis + sumBasis rows code⟩
      | none =>
          if rows.filter (fun r => r.code = code) = [] then none
          else some ⟨sumShares rows code, sumBasis rows code⟩ := by
  induction rows generalizing m with
  | nil =>
      cases h : lookupA m code with
      | some d => simp [sumShares, sumBasis, h]
      | none => simp [sumShares, sumBasis, h]
  | cons r rest ih =>
      show lookupA (rest.foldl mergeStep (mergeStep m r)) code = _
      rw [ih (mergeStep m r)]
      by_cases hc : r.code = code
      · subst hc
        rw [lookupA_mergeStep_self m r]
        cases h : lookupA m r.code with
        | some d =>
            simp only [h, sumShares_cons, sumBasis_cons, eq_self_iff_true, if_true]
            rw [Option.some.injEq, MergeAcc.mk.injEq]
            constructor <;> ring
        | none =>
            simp only [h, sumShares_cons, sumBasis_cons, eq_self_iff_true, if_true]
            have : ¬ (r :: rest).filter (fun x => x.code = r.code) = [] := by
              simp [List.filter]
            rw [if_neg this]
      · rw [lookupA_mergeStep_other m r code (fun h => hc h.symm)]
        cases h : lookupA m code with
        | some d =>
            simp only [h, sumShares_cons, sumBasis_cons, if_neg hc, zero_add]
        | none =>
            simp only [h, sumShares_cons, sumBasis_cons, if_neg hc, zero_add]
            have : (r :: rest).filter (fun x => x.code = code) =
                rest.filter (fun x => x.code = code) := by
              simp [List.filter, hc]
            rw [this]

lemma mergeStep_entries_pos (m : List (String × MergeAcc)) (r : PosRow)
    (hm : ∀ e ∈ m, 0 < e.2.shares) (hr : 0 < r.shares) :
    ∀ e ∈ mergeStep m r, 0 < e.2.shares := by
  induction m with
  | nil =>
      intro e he
      simp only [mergeStep, List.mem_singleton] at he
      rw [he]
      exact hr
  | cons hd tl ih =>
      obtain ⟨c, d⟩ := hd
      intro e he
      by_cases hc : c = r.code
      · rw [mergeStep_cons_same c d tl r hc] at he
        rcases List.mem_cons.mp he with he | he
        · rw [he]
          have hd0 : 0 < d.shares := hm (c, d) (by simp)
          simpa using add_pos hd0 hr
        · exact hm e (List.mem_cons_of_mem _ he)
      · rw [mergeStep_cons_diff c d tl r hc] at he
        rcases List.mem_cons.mp he with he | he
        · exact hm e (by simp [he])
        · exact ih (fun e' he' => hm e' (List.mem_cons_of_mem _ he')) e he

lemma build_entries_pos (rows : List PosRow) : ∀ (m : List (String × MergeAcc)),
    (∀ r ∈ rows, 0 < r.shares) → (∀ e ∈ m, 0 < e.2.shares) →
    ∀ e ∈ rows.foldl mergeStep m, 0 < e.2.shares := by
  induction rows with
  | nil =>
      intro m _ hm
      exact hm
  | cons r rest ih =>
      intro m hrows hm
      exact ih (mergeStep m r) (fun x hx => hrows x (List.mem_cons_of_mem _ hx))
        (mergeStep_entries_pos m r hm (hrows r (by simp)))

lemma filterMap_pos_eq_map (l : List (String × MergeAcc))
    (h : ∀ e ∈ l, 0 < e.2.shares) :
    (l.filterMap (fun cd =>
      if 0 < cd.2.shares then
        some (cd.1, (⟨cd.2.totalCostBasis / cd.2.shares, cd.2.shares⟩ : Position))
      else none)) =
    l.map (fun cd => (cd.1, ⟨cd.2.totalCostBasis / cd.2.shares, cd.2.shares⟩)) := by
  induction l with
  | nil => rfl
  | cons hd tl ih =>
      rw [List.filterMap_cons, List.map_cons]
      rw [if_pos (h hd (by simp))]
      rw [ih (fun e he => h e (List.mem_cons_of_mem _ he))]

lemma lookupA_map_value (g : MergeAcc → Position) (m : List (String × MergeAcc))
    (c : String) :
    lookupA (m.map (fun cd => (cd.1, g cd.2))) c = (lookupA m c).map g := by
  induction m with
  | nil => rfl
  | cons hd tl ih =>
      obtain ⟨c1, d⟩ := hd
      by_cases hc : c1 = c
      · simp [lookupA, hc]
      · simp only [List.map_cons, lookupA, if_neg hc]
        exact ih

/-- **C7.**  `getPositions` with the ALL sentinel (account_id = 0) first
merges positions by instrument code: the merged shares are the sum of the
scanned rows' shares for that code, and the merged cost is the
shares-weighted average (total shares·cost basis divided by total
shares).  A code absent from the rows is absent from the merge. -/
theorem C7_all_merge_weighted_average (rows : List PosRow) (code : String)
    (hpos : ∀ r ∈ rows, 0 < r.shares) :
    (¬ rows.filter (fun r => r.code = code) = [] →
      lookupA (mergedPositionMap rows) code =
        some ⟨sumBasis rows code / sumShares rows code, sumShares rows code⟩ ∧
      0 < sumShares rows code) ∧
    (rows.filter (fun r => r.code = code) = [] →
      lookupA (mergedPositionMap rows) code = none) := by
  have hbuild := lookupA_build rows [] code
  have hentries : ∀ e ∈ buildCodePositions rows, 0 < e.2.shares :=
    build_entries_pos rows [] hpos (by intro e he; exact absurd he (by simp))
  have hg := lookupA_map_value (fun d => (⟨d.totalCostBasis / d.shares, d.shares⟩ : Position))
    (buildCodePositions rows) code
  have hmap : lookupA (mergedPositionMap rows) code =
      (lookupA (buildCodePositions rows) code).map
        (fun d => (⟨d.totalCostBasis / d.shares, d.shares⟩ : Position)) := by
    show lookupA ((buildCodePositions rows).filterMap _) code = _
    rw [filterMap_pos_eq_map (buildCodePositions rows) hentries]
    exact hg
  have hnil : lookupA ([] : List (String × MergeAcc)) code = none := rfl
  rw [hnil] at hbuild
  constructor
  · intro hne
    rw [if_neg hne] at hbuild
    have hS : 0 < sumShares rows code := by
      have hmem : ∀ x ∈ (rows.filter (fun r => r.code = code)).map
          (fun r => r.shares), 0 < x := by
        intro x hx
        rcases List.mem_map.mp hx with ⟨r, hr, hrx⟩
        rw [← hrx]
        exact hpos r (List.mem_of_mem_filter hr)
      have hne' : (rows.filter (fun r => r.code = code)).map (fun r => r.shares) ≠ [] := by
        intro hcontra
        exact hne (List.map_eq_nil_iff.mp hcontra)
      exact List.sum_pos _ hmem hne'
    refine ⟨?_, hS⟩
    show lookupA (mergedPositionMap rows) code = _
    rw [hmap]
    have : lookupA (buildCodePositions rows) code =
        some ⟨sumShares rows code, sumBasis rows code⟩ := hbuild
    rw [this]
    rfl
  · intro hnil'
    rw [if_pos hnil'] at hbuild
    rw [hmap]
    have : lookupA (buildCodePositions rows) code = none := hbuild
    rw [this]
    rfl

/-- Witness for C7: two accounts holding "000001" (100 shares at cost 1,
300 shares at cost 2) merge to 400 shares at weighted cost 7/4. -/
theorem C7_witness :
    lookupA (mergedPositionMap
      [⟨1, "000001", 1, 100⟩, ⟨2, "000001", 2, 300⟩, ⟨2, "000002", 3, 10⟩]) "000001" =
      some ⟨sumBasis [⟨1, "000001", 1, 100⟩, ⟨2, "000001", 2, 300⟩, ⟨2, "000002", 3, 10⟩]
              "000001" /
            sumShares [⟨1, "000001", 1, 100⟩, ⟨2, "000001", 2, 300⟩, ⟨2, "000002", 3, 10⟩]
              "000001",
            sumShares [⟨1, "000001", 1, 100⟩, ⟨2, "000001", 2, 300⟩, ⟨2, "000002", 3, 10⟩]
              "000001"⟩ :=
  ((C7_all_merge_weighted_average
    [⟨1, "000001", 1, 100⟩, ⟨2, "000001", 2, 300⟩, ⟨2, "000002", 3, 10⟩] "000001"
    (by decide)).1 (by decide)).1

/-! ### Lemmas on the notification pass -/

lemma volPass_true (cfg : SubCfg) (env : PassEnv) (er : ℚ) (st : SubState)
    (h : (volPass cfg env er st).2 = true) :
    stampedToday env.todayStr st.lastNotifiedAt = false ∧
    (volPass cfg env er st).1 = { st with lastNotifiedAt := some env.nowTs } := by
  unfold volPass at h ⊢
  by_cases hc : (cfg.enableVolatility && !(stampedToday env.todayStr st.lastNotifiedAt) &&
      volTriggered cfg er) = true
  · rw [if_pos hc] at h ⊢
    by_cases hs : env.sendVolOk = true
    · rw [if_pos hs] at h ⊢
      refine ⟨?_, rfl⟩
      have hc' := hc
      simp only [Bool.and_eq_true] at hc'
      exact (by simpa using hc'.1.2)
    · rw [if_neg hs] at h
      exact absurd h (by simp)
  · rw [if_neg hc] at h
    exact absurd h (by simp)

lemma volPass_false (cfg : SubCfg) (env : PassEnv) (er : ℚ) (st : SubState)
    (h : (volPass cfg env er st).2 = false) :
    (volPass cfg env er st).1 = st := by
  unfold volPass at h ⊢
  by_cases hc : (cfg.enableVolatility && !(stampedToday env.todayStr st.lastNotifiedAt) &&
      volTriggered cfg er) = true
  · rw [if_pos hc] at h ⊢
    by_cases hs : env.sendVolOk = true
    · rw [if_pos hs] at h
      exact absurd h (by simp)
    · rw [if_neg hs]
  · rw [if_neg hc]

lemma digPass_true (cfg : SubCfg) (env : PassEnv) (st : SubState)
    (h : (digPass cfg env st).2 = true) :
    stampedToday env.todayStr st.lastDigestAt = false ∧
    (digPass cfg env st).1 = { st with lastDigestAt := some env.nowTs } := by
  unfold digPass at h ⊢
  by_cases hc : (cfg.enableDigest && !(stampedToday env.todayStr st.lastDigestAt) &&
      lexLe cfg.digestTime.data env.currentTimeStr.data) = true
  · rw [if_pos hc] at h ⊢
    by_cases hs : env.sendDigOk = true
    · rw [if_pos hs] at h ⊢
      refine ⟨?_, rfl⟩
      have hc' := hc
      simp only [Bool.and_eq_true] at hc'
      exact (by simpa using hc'.1.2)
    · rw [if_neg hs] at h
      exact absurd h (by simp)
  · rw [if_neg hc] at h
    exact absurd h (by simp)

lemma digPass_false (cfg : SubCfg) (env : PassEnv) (st : SubState)
    (h : (digPass cfg env st).2 = false) :
    (digPass cfg env st).1 = st := by
  unfold digPass at h ⊢
  by_cases hc : (cfg.enableDigest && !(stampedToday env.todayStr st.lastDigestAt) &&
      lexLe cfg.digestTime.data env.currentTimeStr.data) = true
  · rw [if_pos hc] at h ⊢
    by_cases hs : env.sendDigOk = true
    · rw [if_pos hs] at h
      exact absurd h (by simp)
    · rw [if_neg hs]
  · rw [if_neg hc]

lemma digPass_keeps_notified (cfg : SubCfg) (env : PassEnv) (st : SubState) :
    (digPass cfg env st).1.lastNotifiedAt = st.lastNotifiedAt := by
  unfold digPass
  by_cases hc : (cfg.enableDigest && !(stampedToday env.todayStr st.lastDigestAt) &&
      lexLe cfg.digestTime.data env.currentTimeStr.data) = true
  · rw [if_pos hc]
    by_cases hs : env.sendDigOk = true
    · rw [if_pos hs]
    · rw [if_neg hs]
  · rw [if_neg hc]

lemma volPass_keeps_digest (cfg : SubCfg) (env : PassEnv) (er : ℚ) (st : SubState) :
    (volPass cfg env er st).1.lastDigestAt = st.lastDigestAt := by
  unfold volPass
  by_cases hc : (cfg.enableVolatility && !(stampedToday env.todayStr st.lastNotifiedAt) &&
      volTriggered cfg er) = true
  · rw [if_pos hc]
    by_cases hs : env.sendVolOk = true
    · rw [if_pos hs]
    · rw [if_neg hs]
  · rw [if_neg hc]

lemma checkSubPass_facts (cfg : SubCfg) (env : PassEnv) (st : SubState) :
    ((checkSubPass cfg env st).2.1 = true →
      stampedToday env.todayStr st.lastNotifiedAt = false ∧
      (checkSubPass cfg env st).1.lastNotifiedAt = some env.nowTs) ∧
    ((checkSubPass cfg env st).2.1 = false →
      (checkSubPass cfg env st).1.lastNotifiedAt = st.lastNotifiedAt) ∧
    ((checkSubPass cfg env st).2.2 = true →
      stampedToday env.todayStr st.lastDigestAt = false ∧
      (checkSubPass cfg env st).1.lastDigestAt = some env.nowTs) ∧
    ((checkSubPass cfg env st).2.2 = false →
      (checkSubPass cfg env st).1.lastDigestAt = st.lastDigestAt) := by
  cases hr : env.estRate with
  | none => simp [checkSubPass, hr]
  | some er =>
      simp only [checkSubPass, hr]
      refine ⟨?_, ?_, ?_, ?_⟩
      · intro h
        obtain ⟨hst, heq⟩ := volPass_true cfg env er st h
        refine ⟨hst, ?_⟩
        rw [digPass_keeps_notified, heq]
      · intro h
        rw [digPass_keeps_notified, volPass_false cfg env er st h]
      · intro h
        obtain ⟨hst, heq⟩ := digPass_true cfg env (volPass cfg env er st).1 h
        rw [volPass_keeps_digest] at hst
        refine ⟨hst, ?_⟩
        rw [heq]
      · intro h
        rw [digPass_false cfg env (volPass cfg env er st).1 h, volPass_keeps_digest]

lemma runPasses_counts (cfg : SubCfg) (today : String) :
    ∀ (envs : List PassEnv) (st : SubState),
      (∀ e ∈ envs, e.todayStr = today ∧ startsWithM e.nowTs today = true) →
      ((stampedToday today st.lastNotifiedAt = true → (runPasses cfg st envs).2.1 = 0) ∧
        (runPasses cfg st envs).2.1 ≤ 1) ∧
      ((stampedToday today st.lastDigestAt = true → (runPasses cfg st envs).2.2 = 0) ∧
        (runPasses cfg st envs).2.2 ≤ 1) := by
  intro envs
  induction envs with
  | nil =>
      intro st _
      refine ⟨⟨fun _ => rfl, ?_⟩, ⟨fun _ => rfl, ?_⟩⟩ <;>
        · show (0 : Nat) ≤ 1
          norm_num
  | cons env rest ih =>
      intro st henvs
      have henv := henvs env (by simp)
      have hrest : ∀ e ∈ rest, e.todayStr = today ∧ startsWithM e.nowTs today = true :=
        fun e he => henvs e (List.mem_cons_of_mem _ he)
      have hih := ih (checkSubPass cfg env st).1 hrest
      have e1 : (runPasses cfg st (env :: rest)).2.1 =
          (if (checkSubPass cfg env st).2.1 = true then 1 else 0) +
            (runPasses cfg (checkSubPass cfg env st).1 rest).2.1 := rfl
      have e2 : (runPasses cfg st (env :: rest)).2.2 =
          (if (checkSubPass cfg env st).2.2 = true then 1 else 0) +
            (runPasses cfg (checkSubPass cfg env st).1 rest).2.2 := rfl
      have hfacts := checkSubPass_facts cfg env st
      constructor
      · cases hv : (checkSubPass cfg env st).2.1 with
        | true =>
            obtain ⟨hst, hln⟩ := hfacts.1 hv
            have hstamped : stampedToday today (checkSubPass cfg env st).1.lastNotifiedAt
                = true := by
              rw [hln]
              simp only [stampedToday]
              exact henv.2
            have hzero := hih.1.1 hstamped
            constructor
            · intro hst0
              rw [henv.1] at hst
              rw [hst0] at hst
              exact absurd hst (by simp)
            · rw [e1, if_pos hv, hzero]
        | false =>
            have hln := hfacts.2.1 hv
            have hne : ¬ (checkSubPass cfg env st).2.1 = true := by
              rw [hv]
              simp
            constructor
            · intro hst0
              have : stampedToday today (checkSubPass cfg env st).1.lastNotifiedAt = true := by
                rw [hln]
                exact hst0
              rw [e1, if_neg hne, hih.1.1 this]
            · rw [e1, if_neg hne, zero_add]
              exact hih.1.2
      · cases hd : (checkSubPass cfg env st).2.2 with
        | true =>
            obtain ⟨hst, hld⟩ := hfacts.2.2.1 hd
            have hstamped : stampedToday today (checkSubPass cfg env st).1.lastDigestAt
                = true := by
              rw [hld]
              simp only [stampedToday]
              exact henv.2
            have hzero := hih.2.1 hstamped
            constructor
            · intro hst0
              rw [henv.1] at hst
              rw [hst0] at hst
              exact absurd hst (by simp)
            · rw [e2, if_pos hd, hzero]
        | false =>
            have hld := hfacts.2.2.2 hd
            have hne : ¬ (checkSubPass cfg env st).2.2 = true := by
              rw [hd]
              simp
            constructor
            · intro hst0
              have : stampedToday today (checkSubPass cfg env st).1.lastDigestAt = true := by
                rw [hld]
                exact hst0
              rw [e2, if_neg hne, hih.2.1 this]
            · rw [e2, if_neg hne, zero_add]
              exact hih.2.2

/-- **C8.**  Per subscription and calendar day, at most one volatility
alert and at most one digest are dispatched across any number of
reconciliation passes; a timestamp advances to now exactly on a
successful dispatch and is left untouched otherwise, so a failed send may
retry. -/
theorem C8_one_alert_one_digest_per_day :
    (∀ (cfg : SubCfg) (today : String) (envs : List PassEnv) (st : SubState),
      (∀ e ∈ envs, e.todayStr = today ∧ startsWithM e.nowTs today = true) →
      (runPasses cfg st envs).2.1 ≤ 1 ∧ (runPasses cfg st envs).2.2 ≤ 1) ∧
    (∀ (cfg : SubCfg) (env : PassEnv) (st : SubState),
      ((checkSubPass cfg env st).2.1 = false →
        (checkSubPass cfg env st).1.lastNotifiedAt = st.lastNotifiedAt) ∧
      ((checkSubPass cfg env st).2.2 = false →
        (checkSubPass cfg env st).1.lastDigestAt = st.lastDigestAt) ∧
      ((checkSubPass cfg env st).2.1 = true →
        (checkSubPass cfg env st).1.lastNotifiedAt = some env.nowTs) ∧
      ((checkSubPass cfg env st).2.2 = true →
        (checkSubPass cfg env st).1.lastDigestAt = some env.nowTs)) := by
  constructor
  · intro cfg today envs st henvs
    have h := runPasses_counts cfg today envs st henvs
    exact ⟨h.1.2, h.2.2⟩
  · intro cfg env st
    have h := checkSubPass_facts cfg env st
    exact ⟨h.2.1, h.2.2.2, fun hv => (h.1 hv).2, fun hd => (h.2.2.1 hd).2⟩

/-- Witness for C8: two same-day passes that both trigger a volatility
alert with a successful send dispatch exactly one alert. -/
theorem C8_witness :
    (runPasses
      ⟨true, true, some 2, none, "14:45"⟩
      ⟨none, none⟩
      [⟨"2026-01-06", "15:00", "2026-01-06 15:00:00", some 3, true, true⟩,
       ⟨"2026-01-06", "15:05", "2026-01-06 15:05:00", some 3, true, true⟩]).2.1 ≤ 1 ∧
    (runPasses
      ⟨true, true, some 2, none, "14:45"⟩
      ⟨none, none⟩
      [⟨"2026-01-06", "15:00", "2026-01-06 15:00:00", some 3, true, true⟩,
       ⟨"2026-01-06", "15:05", "2026-01-06 15:05:00", some 3, true, true⟩]).2.2 ≤ 1 :=
  C8_one_alert_one_digest_per_day.1
    ⟨true, true, some 2, none, "14:45"⟩ "2026-01-06"
    [⟨"2026-01-06", "15:00", "2026-01-06 15:00:00", some 3, true, true⟩,
     ⟨"2026-01-06", "15:05", "2026-01-06 15:05:00", some 3, true, true⟩]
    ⟨none, none⟩ (by decide)

/-- **C9, counterexample.**  The claim says the secondary never overwrites
a field the primary already populated with a nonzero value.  But the
overlay is a plain dict update: with the primary returning a nonzero NAV
1.5 alongside a zero estimate, and the secondary returning NAV 1.6, the
combined result carries the secondary's 1.6 — the primary's nonzero NAV
was overwritten, refuting the claim. -/
theorem C9_counterexample :
    (get_combined_valuation (some ⟨"A", 3 / 2, 0, 0, "t"⟩)
        (some ⟨81 / 50, 8 / 5, 1, "u"⟩)).nav = some (8 / 5) ∧
    (emToCombined (some ⟨"A", 3 / 2, 0, 0, "t"⟩)).nav = some (3 / 2) ∧
    (3 / 2 : ℚ) ≠ 0 ∧ ((8 : ℚ) / 5) ≠ 3 / 2 := by
  refine ⟨?_, rfl, by norm_num, by norm_num⟩
  rfl

/-- **C9, amended.**  The secondary is consulted only when the primary
yields no usable estimate (empty result or zero estimate) — when the
primary's estimate is nonzero the combined result is exactly the
primary's, whatever the secondary would return.  When the secondary is
consulted and returns data, every field it supplies (nav, estimate,
estRate, time) replaces the primary's value — including values the
primary populated with nonzero data — and only fields the secondary does
not supply (name) are retained from the primary. -/
theorem C9_secondary_overlay_semantics :
    (∀ (em : Option EmVal) (sina : Option SinaVal) (e : EmVal),
      em = some e → ¬ e.estimate = 0 →
      get_combined_valuation em sina = emToCombined em) ∧
    (∀ (em : Option EmVal), get_combined_valuation em none = emToCombined em) ∧
    (∀ (em : Option EmVal) (e : EmVal) (s : SinaVal),
      em = some e → e.estimate = 0 →
      get_combined_valuation em (some s) =
        { name := some e.name, nav := some s.nav, estimate := some s.estimate,
          estRate := some s.estRate, time := some s.time }) ∧
    (∀ (s : SinaVal),
      get_combined_valuation none (some s) =
        { name := none, nav := some s.nav, estimate := some s.estimate,
          estRate := some s.estRate, time := some s.time }) := by
  refine ⟨?_, ?_, ?_, ?_⟩
  · intro em sina e hem hz
    subst hem
    have hcond : ¬ ((some e = (none : Option EmVal)) ∨
        (emToCombined (some e)).estimate = some 0) := by
      rintro (h | h)
      · exact absurd h (by simp)
      · exact hz (by simpa [emToCombined] using h)
    simp only [get_combined_valuation, if_neg hcond]
  · intro em
    simp only [get_combined_valuation]
    by_cases hcond : (em = (none : Option EmVal)) ∨ (emToCombined em).estimate = some 0
    · rw [if_pos hcond]
    · rw [if_neg hcond]
  · intro em e s hem hz
    subst hem
    have hcond : (some e = (none : Option EmVal)) ∨
        (emToCombined (some e)).estimate = some 0 := by
      right
      simp [emToCombined, hz]
    simp only [get_combined_valuation, if_pos hcond]
    rfl
  · intro s
    have hcond : ((none : Option EmVal) = (none : Option EmVal)) ∨
        (emToCombined none).estimate = some 0 := Or.inl rfl
    simp only [get_combined_valuation, if_pos hcond]
    rfl

/-- Witness for the amended C9: with a usable primary estimate the
secondary's data is ignored entirely. -/
theorem C9_witness :
    get_combined_valuation (some ⟨"A", 3 / 2, 2, 1, "t"⟩)
        (some ⟨81 / 50, 8 / 5, 1, "u"⟩) =
      emToCombined (some ⟨"A", 3 / 2, 2, 1, "t"⟩) :=
  C9_secondary_overlay_semantics.1 (some ⟨"A", 3 / 2, 2, 1, "t"⟩)
    (some ⟨81 / 50, 8 / 5, 1, "u"⟩) ⟨"A", 3 / 2, 2, 1, "t"⟩ rfl (by norm_num)

end FundVal
